import Mathlib

/-!
Verification of `listener.py`, a poll-diff-notify page watcher.

The development shallowly embeds the program's pure logic:
* the hasher `get_hash` (parametrised by the digest function `H`,
  standing for SHA-256 hex digest),
* the HTML section extractor `extract_training_section` over a DOM tree
  model (the parser itself is a parameter `parse`),
* the state store `load_hashes` / `save_hashes` over an explicit file
  state, with Python `str.splitlines` modelled by `splitlines`,
* the notifier `notify` / `send_telegram` / `send_mail` over an explicit
  configuration and explicit HTTP outcomes,
* the main loop `cycle` / `runLoop` driven by a list of external events.
-/

namespace Listener

/-! ### Python `str.splitlines`, specialised to `\n`-separated text -/

/-- Helper for `splitlines`: `acc` holds the current (reversed) line. -/
def slAux (acc : List Char) : List Char → List String
  | [] => if acc.isEmpty then [] else [String.mk acc.reverse]
  | c :: cs => if c = '\n' then String.mk acc.reverse :: slAux [] cs else slAux (c :: acc) cs

/-- Model of Python `str.splitlines()` for text whose only line separator is `'\n'`:
splits into lines, without a trailing empty line for a trailing newline. -/
def splitlines (s : String) : List String :=
  slAux [] s.data

/-! ### State store (`load_hashes`, `save_hashes`) -/

/-- The possible observable conditions of the hash file. -/
inductive FileState where
  | absent
  | unreadable
  | content (s : String)

/-- `load_hashes`: absent file, unreadable file, or a line count other than
two all yield `(None, None)`; a two-line file yields the two lines. -/
def load_hashes : FileState → Option String × Option String
  | .absent => (none, none)
  | .unreadable => (none, none)
  | .content s =>
    match splitlines s with
    | [a, b] => (some a, some b)
    | _ => (none, none)

/-- The exact text `save_hashes` writes: each digest followed by a newline. -/
def savedContent (full_hash section_hash : String) : String :=
  full_hash ++ "\n" ++ section_hash ++ "\n"

/-- `save_hashes`: overwrite the file with the two digests, one per line. -/
def save_hashes (full_hash section_hash : String) : FileState :=
  .content (savedContent full_hash section_hash)

/-! ### Hasher (`get_hash`) -/

/-- `get_hash(content)`: hash of `content or ""`.  `H` stands for the
SHA-256 hex digest function applied to the UTF-8 encoding. -/
def get_hash (H : String → String) (content : Option String) : String :=
  H (content.getD "")

/-! ### Python string helpers used by the extractor -/

/-- Model of Python `sep.join(parts)`. -/
def pyJoin (sep : String) : List String → String
  | [] => ""
  | [x] => x
  | x :: xs => x ++ sep ++ pyJoin sep xs

/-- Model of Python `s.strip()`: remove whitespace from both ends. -/
def pyStrip (s : String) : String :=
  String.mk (((s.data.dropWhile Char.isWhitespace).reverse.dropWhile Char.isWhitespace).reverse)

/-- Model of Python `s.startswith(p)`. -/
def pyStartsWith (s p : String) : Bool :=
  p.data.isPrefixOf s.data

/-! ### Extractor (`extract_training_section`) -/

/-- DOM tree model of a parsed HTML node: a text node or an element with a
tag name and a list of children. -/
inductive Node where
  | text (s : String)
  | elem (tag : String) (children : List Node)
deriving Repr

mutual

/-- Model of `str(tag)`: serialize a node back to markup text. -/
def serialize : Node → String
  | .text s => s
  | .elem tag children => "<" ++ tag ++ ">" ++ serializeList children ++ "</" ++ tag ++ ">"

/-- Serialize a list of nodes by concatenation. -/
def serializeList : List Node → String
  | [] => ""
  | n :: ns => serialize n ++ serializeList ns

end

/-- BeautifulSoup's `.string`: the text of a tag that wraps exactly one
text node (possibly through single-child tags); otherwise absent. -/
def nodeString : Node → Option String
  | .text s => some s
  | .elem _ [c] => nodeString c
  | .elem _ _ => none

/-- The exact heading text `extract_training_section` searches for. -/
def TARGET : String := "Kurzfristig zu besetzende Ausbildungsplätze:"

/-- `soup.find("h5", string=TARGET)` in pre-order, returning the list of
nodes that follow the found header among its siblings. -/
def findHeaderSiblings : List Node → Option (List Node)
  | [] => none
  | .text _ :: rest => findHeaderSiblings rest
  | .elem tag children :: rest =>
    if tag = "h5" ∧ nodeString (.elem tag children) = some TARGET then
      some rest
    else
      match findHeaderSiblings children with
      | some sibs => some sibs
      | none => findHeaderSiblings rest

/-- The loop over `header.find_next_siblings()` (element siblings only):
break at the first element whose tag name starts with `"h"`, otherwise
collect `str(sibling)`. -/
def collect_parts : List Node → List String
  | [] => []
  | .text _ :: rest => collect_parts rest
  | .elem tag children :: rest =>
    if tag ≠ "" ∧ pyStartsWith tag "h" then []
    else serialize (.elem tag children) :: collect_parts rest

/-- `extract_training_section(html)` on the parsed document: find the target
h5 header; collect following sibling elements up to the first `h*`-named
element; join with newlines, strip; empty result becomes `None`. -/
def extract_training_section (doc : List Node) : Option String :=
  match findHeaderSiblings doc with
  | none => none
  | some sibs =>
    let combined := pyStrip (pyJoin "\n" (collect_parts sibs))
    if combined = "" then none else some combined

/-- Whether a node is an element (a tag, not a text node). -/
def Node.isElem : Node → Bool
  | .text _ => false
  | .elem _ _ => true

/-- The tag name of a node (text nodes have none). -/
def Node.tagOf : Node → String
  | .text _ => ""
  | .elem tag _ => tag

/-- Whether a tag name is a heading tag of some level, `h1` through `h6`. -/
def isHeadingTag (tag : String) : Bool :=
  tag = "h1" || tag = "h2" || tag = "h3" || tag = "h4" || tag = "h5" || tag = "h6"

/-- Modelled from the spec's words, for comparison with
`extract_training_section`: collect the following sibling elements up to
but not including the next heading-class element of any level (`h1`–`h6`),
serialize, join with newlines, trim; an empty result or a missing heading
yields the "no section" value. -/
def extract_training_section_spec (doc : List Node) : Option String :=
  match findHeaderSiblings doc with
  | none => none
  | some sibs =>
    let collected := (sibs.filter fun n => n.isElem).takeWhile fun n => !isHeadingTag n.tagOf
    let combined := pyStrip (pyJoin "\n" (collected.map serialize))
    if combined = "" then none else some combined

/-- The amended stopping rule: stop at the next sibling element whose tag
name begins with `"h"` (so also at `hr`, `header`, …), not only at
headings `h1`–`h6`. -/
def extract_training_section_amended (doc : List Node) : Option String :=
  match findHeaderSiblings doc with
  | none => none
  | some sibs =>
    let collected := (sibs.filter fun n => n.isElem).takeWhile fun n => !pyStartsWith n.tagOf "h"
    let combined := pyStrip (pyJoin "\n" (collected.map serialize))
    if combined = "" then none else some combined

/-- A concrete document: the target heading followed by a horizontal rule
and a paragraph.  `hr` is not a heading, but its tag name starts with `h`. -/
def hrDoc : List Node :=
  [.elem "h5" [.text TARGET], .elem "hr" [], .elem "p" [.text "A"]]

/-! ### Notifier (`send_telegram`, `send_mail`, `notify`) -/

/-- The environment-sourced configuration variables the notifier reads.
`none` models an unset variable; `some s` a variable set to `s`. -/
structure Config where
  telegram_bot_token : Option String
  telegram_chat_id : Option String
  brevo_api_key : Option String
  from_email : Option String
  mail_to : Option String

/-- Python truthiness of an optional string: unset and empty are falsy. -/
def truthy : Option String → Bool
  | none => false
  | some s => s != ""

/-- Observable outcome of one notification channel. -/
inductive ChannelResult where
  | skipped
  | sent
  | failed
deriving DecidableEq, Repr

/-- The boolean each `send_*` function returns: `True` only for `sent`. -/
def channelSuccess : ChannelResult → Bool
  | .sent => true
  | _ => false

/-- `send_telegram`: skip unless both variables are truthy; otherwise the
outcome of the HTTP POST (`.ok` for a 2xx response, `.error` for a caught
`RequestException`, including non-2xx via `raise_for_status`) decides it. -/
def send_telegram (cfg : Config) (post : Except Unit Unit) : ChannelResult :=
  if !(truthy cfg.telegram_bot_token && truthy cfg.telegram_chat_id) then .skipped
  else match post with
    | .ok _ => .sent
    | .error _ => .failed

/-- `send_mail`: skip unless API key, sender and recipients are all truthy;
otherwise the outcome of the HTTP POST decides it. -/
def send_mail (cfg : Config) (post : Except Unit Unit) : ChannelResult :=
  if !(truthy cfg.brevo_api_key && truthy cfg.from_email && truthy cfg.mail_to) then .skipped
  else match post with
    | .ok _ => .sent
    | .error _ => .failed

/-- `notify(subject, body)`: attempt Telegram, then mail, and warn (third
component) when neither reported success. -/
def notify (cfg : Config) (tgPost mailPost : Except Unit Unit) :
    ChannelResult × ChannelResult × Bool :=
  let t := send_telegram cfg tgPost
  let m := send_mail cfg mailPost
  (t, m, !channelSuccess t && !channelSuccess m)

/-! ### Loop controller (`main`) -/

/-- One notification emitted by the loop body. -/
inductive Notification where
  | structureChanged
  | update (content : String)
deriving DecidableEq, Repr

/-- The body text payload of an update notification: Python
`section or '[leer]'`. -/
def sectionOrPlaceholder : Option String → String
  | none => "[leer]"
  | some s => if s = "" then "[leer]" else s

/-- The loop's mutable state: the two in-memory last-hash variables and
the hash file. -/
structure LoopState where
  lastFull : Option String
  lastSection : Option String
  fs : FileState

/-- External outcome of one cycle: the fetch fails with a
`RequestException`, or it returns HTML and the subsequent `save_hashes`
either succeeds (`saveCrash = none`) or raises after writing the first
`k` characters (`saveCrash = some k`). -/
inductive Event where
  | fetchFail
  | page (html : String) (saveCrash : Option Nat)

/-- One iteration of the `while True` body, `try`/`except` included.
Returns the next state, the notifications sent this cycle, and whether an
error was caught and logged. -/
def cycle (H : String → String) (parse : String → List Node) (e : Event) (s : LoopState) :
    LoopState × List Notification × Bool :=
  match e with
  | .fetchFail => (s, [], true)
  | .page html saveCrash =>
    let full_hash := get_hash H (some html)
    let sec := extract_training_section (parse html)
    let section_hash := get_hash H sec
    let notifs :=
      match s.lastFull with
      | none => []
      | some lf =>
        (if full_hash ≠ lf then [Notification.structureChanged] else []) ++
        (if some section_hash ≠ s.lastSection then
          [Notification.update (sectionOrPlaceholder sec)] else [])
    match saveCrash with
    | none =>
      (⟨some full_hash, some section_hash, save_hashes full_hash section_hash⟩, notifs, false)
    | some k =>
      ({ s with fs := .content (String.mk ((savedContent full_hash section_hash).data.take k)) },
        notifs, true)

/-- The loop, run over a finite list of cycle outcomes: final state plus,
per cycle, the notifications sent and the error flag. -/
def runLoop (H : String → String) (parse : String → List Node) (s : LoopState) :
    List Event → LoopState × List (List Notification × Bool)
  | [] => (s, [])
  | e :: es =>
    let r := cycle H parse e s
    let rest := runLoop H parse r.1 es
    (rest.1, r.2 :: rest.2)

/-- Startup: `load_hashes()` populates the two in-memory variables. -/
def initState (fs : FileState) : LoopState :=
  ⟨(load_hashes fs).1, (load_hashes fs).2, fs⟩

/-! ### Helper lemmas -/

theorem data_append (a b : String) : (a ++ b).data = a.data ++ b.data := rfl

theorem slAux_append_newline (F : List Char) (hF : '\n' ∉ F) :
    ∀ (acc rest : List Char),
      slAux acc (F ++ '\n' :: rest) = String.mk (acc.reverse ++ F) :: slAux [] rest := by
  induction F with
  | nil => intro acc rest; simp [slAux]
  | cons c F ih =>
    intro acc rest
    have hc : c ≠ '\n' := fun h => hF (h ▸ List.mem_cons_self c F)
    have hF' : '\n' ∉ F := fun h => hF (List.mem_cons_of_mem c h)
    simp only [List.cons_append, slAux, if_neg hc, List.append_eq]
    rw [ih hF' (c :: acc) rest]
    simp

theorem slAux_no_newline (F : List Char) (hF : '\n' ∉ F) :
    ∀ acc : List Char, acc ≠ [] ∨ F ≠ [] →
      slAux acc F = [String.mk (acc.reverse ++ F)] := by
  induction F with
  | nil =>
    intro acc h
    have hacc : acc ≠ [] := h.resolve_right (fun hne => hne rfl)
    simp [slAux, hacc]
  | cons c F ih =>
    intro acc _
    have hc : c ≠ '\n' := fun h => hF (h ▸ List.mem_cons_self c F)
    have hF' : '\n' ∉ F := fun h => hF (List.mem_cons_of_mem c h)
    simp only [slAux, if_neg hc, List.append_eq]
    rw [ih hF' (c :: acc) (Or.inl (List.cons_ne_nil c acc))]
    simp

theorem splitlines_saved (F S : String) (hF : '\n' ∉ F.data) (hS : '\n' ∉ S.data) :
    splitlines (savedContent F S) = [F, S] := by
  have hdata : (savedContent F S).data = F.data ++ '\n' :: (S.data ++ ['\n']) := by
    simp [savedContent, data_append]
  rw [splitlines, hdata, slAux_append_newline F.data hF]
  have h2 : slAux [] (S.data ++ '\n' :: ([] : List Char)) =
      String.mk (List.reverse [] ++ S.data) :: slAux [] [] :=
    slAux_append_newline S.data hS [] []
  simp only [List.append_nil] at h2 ⊢
  rw [h2]
  simp [slAux]

theorem load_saved (F S : String) (hF : '\n' ∉ F.data) (hS : '\n' ∉ S.data) :
    load_hashes (save_hashes F S) = (some F, some S) := by
  simp [load_hashes, save_hashes, splitlines_saved F S hF hS]

/-- Splitting a list that is an initial segment of an append. -/
theorem splitAppend {α : Type} (A : List α) :
    ∀ (p B : List α), p <+: A ++ B → p <+: A ∨ ∃ q, p = A ++ q ∧ q <+: B := by
  induction A with
  | nil => intro p B h; exact Or.inr ⟨p, rfl, h⟩
  | cons a A ih =>
    intro p B h
    cases p with
    | nil => exact Or.inl ⟨a :: A, rfl⟩
    | cons x p' =>
      obtain ⟨t, ht⟩ := h
      have ht2 : x :: (p' ++ t) = a :: (A ++ B) := by simpa using ht
      injection ht2 with hx ht'
      rcases ih p' B ⟨t, ht'⟩ with h1 | ⟨q, hq1, hq2⟩
      · left
        obtain ⟨t1, ht1⟩ := h1
        exact ⟨t1, by rw [hx]; simp [ht1]⟩
      · exact Or.inr ⟨q, by rw [hx, hq1]; rfl, hq2⟩

theorem load_content_short (s : String) (h : (splitlines s).length ≠ 2) :
    load_hashes (.content s) = (none, none) := by
  cases hls : splitlines s with
  | nil => simp [load_hashes, hls]
  | cons a l =>
    cases l with
    | nil => simp [load_hashes, hls]
    | cons b l2 =>
      cases l2 with
      | nil => exact absurd (by simp [hls]) h
      | cons c l3 => simp [load_hashes, hls]

theorem load_no_newline (p : String) (h : '\n' ∉ p.data) :
    load_hashes (.content p) = (none, none) := by
  apply load_content_short
  cases hpd : p.data with
  | nil => rw [splitlines, hpd]; simp [slAux]
  | cons c cs =>
    rw [splitlines, hpd,
      slAux_no_newline (c :: cs) (hpd ▸ h) [] (Or.inr (List.cons_ne_nil c cs))]
    simp

theorem pyStartsWith_ne_empty {tag : String} (h : pyStartsWith tag "h" = true) :
    tag ≠ "" := by
  intro he
  rw [he] at h
  exact absurd h (by decide)

theorem collect_parts_eq (l : List Node) :
    collect_parts l =
      ((l.filter fun n => n.isElem).takeWhile fun n => !pyStartsWith n.tagOf "h").map
        serialize := by
  induction l with
  | nil => rfl
  | cons n rest ih =>
    cases n with
    | text s => simpa [collect_parts, Node.isElem] using ih
    | elem tag children =>
      by_cases hsw : pyStartsWith tag "h" = true
      · simp [collect_parts, Node.isElem, Node.tagOf, hsw, pyStartsWith_ne_empty hsw]
      · simp [collect_parts, Node.isElem, Node.tagOf, hsw, ih]

/-- C3 (counterexample): on a document where the target heading is followed
by an `hr` element and a paragraph, the extractor does not return the
markup up to the next heading-class element (there is none, so the claim
predicts both siblings); it stops at `hr` and returns the "no section"
value instead. -/
theorem c3_heading_class_counterexample :
    extract_training_section hrDoc ≠ extract_training_section_spec hrDoc := by
  have h1 : extract_training_section hrDoc = none := by
    simp [extract_training_section, hrDoc, findHeaderSiblings, nodeString, TARGET,
      collect_parts, pyStartsWith]
    decide
  have h2 : extract_training_section_spec hrDoc = some "<hr></hr>\n<p>A</p>" := by
    simp [extract_training_section_spec, hrDoc, findHeaderSiblings, nodeString, TARGET,
      isHeadingTag, Node.isElem, Node.tagOf, serialize, serializeList]
    decide
  rw [h1, h2]
  simp

/-- C3 (amended): for every document, the extractor behaves as the claim
states except that sibling collection stops at the first following sibling
element whose tag name begins with `"h"` (e.g. also `hr`, `header`), not
only at heading elements `h1`–`h6`. -/
theorem c3_extract_stops_at_h_tags (doc : List Node) :
    extract_training_section doc = extract_training_section_amended doc := by
  unfold extract_training_section extract_training_section_amended
  cases h : findHeaderSiblings doc with
  | none => rfl
  | some sibs => simp [collect_parts_eq]

end Listener

namespace Listener

/-- C8 (amended): for every stopping point of the write (every prefix `p`
of the written content), a subsequent load returns either the no-prior-state
signal or the complete new full-page hash paired with a prefix of the new
section hash (the complete pair being the full-prefix case); it never
crashes and never mixes old and new digests. -/
theorem c8_save_crash_amended (F S p : String) (hF : '\n' ∉ F.data) (hS : '\n' ∉ S.data)
    (hp : p.data <+: (savedContent F S).data) :
    load_hashes (.content p) = (none, none) ∨
      ∃ q : String, q.data <+: S.data ∧ load_hashes (.content p) = (some F, some q) := by
  have hdata : (savedContent F S).data = F.data ++ '\n' :: (S.data ++ ['\n']) := by
    simp [savedContent, data_append]
  rw [hdata] at hp
  rcases splitAppend F.data p.data ('\n' :: (S.data ++ ['\n'])) hp with h1 | ⟨q, hq1, hq2⟩
  · exact Or.inl (load_no_newline p fun hm => hF (h1.subset hm))
  · have hq1' : p.data = F.data ++ q := hq1
    cases q with
    | nil =>
      left
      refine load_no_newline p fun hm => hF ?_
      rw [hq1'] at hm
      simpa using hm
    | cons c q' =>
      obtain ⟨t, ht⟩ := hq2
      have ht2 : c :: (q' ++ t) = '\n' :: (S.data ++ ['\n']) := by simpa using ht
      injection ht2 with hc ht'
      subst hc
      have hsp : splitlines p = F :: slAux [] q' := by
        rw [splitlines, hq1', slAux_append_newline F.data hF]
        simp
      rcases splitAppend S.data q' ['\n'] ⟨t, ht'⟩ with h2 | ⟨r, hr1, hr2⟩
      · by_cases hq'nil : q' = []
        · left
          apply load_content_short
          rw [hsp, hq'nil]
          simp [slAux]
        · right
          have hnq : '\n' ∉ q' := fun hm => hS (h2.subset hm)
          refine ⟨String.mk q', h2, ?_⟩
          have hsl : splitlines p = [F, String.mk q'] := by
            rw [hsp, slAux_no_newline q' hnq [] (Or.inr hq'nil)]
            simp
          simp [load_hashes, hsl]
      · obtain ⟨u, hu⟩ := hr2
        cases r with
        | nil =>
          by_cases hSnil : S.data = []
          · left
            apply load_content_short
            rw [hsp, hr1, hSnil]
            simp [slAux]
          · right
            refine ⟨S, ⟨[], List.append_nil _⟩, ?_⟩
            have hq'S : q' = S.data := by rw [hr1]; simp
            have hsl : splitlines p = [F, S] := by
              rw [hsp, hq'S, slAux_no_newline S.data hS [] (Or.inr hSnil)]
              simp
            simp [load_hashes, hsl]
        | cons d r' =>
          have hdu : d :: (r' ++ u) = ['\n'] := by simpa using hu
          injection hdu with hd hru
          have hr' : r' = [] := by
            cases r' with
            | nil => rfl
            | cons _ _ => simp at hru
          right
          refine ⟨S, ⟨[], List.append_nil _⟩, ?_⟩
          have hq'full : q' = S.data ++ '\n' :: ([] : List Char) := by
            rw [hr1, hd, hr']
          have hsl : splitlines p = [F, S] := by
            rw [hsp, hq'full, slAux_append_newline S.data hS]
            simp [slAux]
          simp [load_hashes, hsl]

/-- C8 (witness): the amended save-crash property instantiated at digests
`"aa"`, `"bb"` and the stop point `"aa\nb"`. -/
theorem c8_save_crash_witness :
    load_hashes (.content "aa\nb") = (none, none) ∨
      ∃ q : String, q.data <+: ("bb" : String).data ∧
        load_hashes (.content "aa\nb") = (some "aa", some q) :=
  c8_save_crash_amended "aa" "bb" "aa\nb" (by decide) (by decide) ⟨"b\n".data, by decide⟩

/-- C8 (counterexample): stopping the write of `save_hashes "aa" "bb"` after
`"aa\nb"` leaves a state that `load_hashes` accepts, yet it is neither the
complete new pair nor the no-prior-state signal. -/
theorem c8_crash_truncated_accepted :
    "aa\nb".data <+: (savedContent "aa" "bb").data ∧
      load_hashes (.content "aa\nb") ≠ (some "aa", some "bb") ∧
      load_hashes (.content "aa\nb") ≠ (none, none) :=
  ⟨⟨"b\n".data, by decide⟩, by decide, by decide⟩

/-- C1: in steady state (both prior hashes in memory), the cycle's
notifications are exactly the concatenation of a "structure changed"
notification present iff the new full-page hash differs from the stored
one and an "update" notification, carrying the new section content or the
placeholder, present iff the new section hash differs from the stored one;
in particular each fires independently and both can fire in one cycle. -/
theorem c1_steady_notifications (H : String → String) (parse : String → List Node)
    (lf ls : String) (fsx : FileState) (html : String) (sv : Option Nat) :
    (cycle H parse (.page html sv) ⟨some lf, some ls, fsx⟩).2.1 =
      (if get_hash H (some html) = lf then [] else [Notification.structureChanged]) ++
        (if get_hash H (extract_training_section (parse html)) = ls then []
          else
            [Notification.update
              (sectionOrPlaceholder (extract_training_section (parse html)))]) ∧
    (Notification.structureChanged ∈ (cycle H parse (.page html sv) ⟨some lf, some ls, fsx⟩).2.1 ↔
      get_hash H (some html) ≠ lf) ∧
    (Notification.update (sectionOrPlaceholder (extract_training_section (parse html))) ∈
        (cycle H parse (.page html sv) ⟨some lf, some ls, fsx⟩).2.1 ↔
      get_hash H (extract_training_section (parse html)) ≠ ls) := by
  by_cases h1 : get_hash H (some html) = lf <;>
    by_cases h2 : get_hash H (extract_training_section (parse html)) = ls <;>
      cases sv <;> simp [cycle, h1, h2]

/-- C2: on a first run (load yields the no-prior-state signal), a cycle
with a successful save sends no notification, persists exactly the two new
digests one per line, and leaves the in-memory state equal to what a load
of the persisted state returns. -/
theorem c2_first_run_baseline (H : String → String) (parse : String → List Node)
    (fs0 : FileState) (html : String)
    (hload : load_hashes fs0 = (none, none))
    (hH : ∀ x, '\n' ∉ (H x).data) :
    (cycle H parse (.page html none) (initState fs0)).2.1 = [] ∧
    (cycle H parse (.page html none) (initState fs0)).1.fs =
      FileState.content
        (savedContent (get_hash H (some html))
          (get_hash H (extract_training_section (parse html)))) ∧
    splitlines
        (savedContent (get_hash H (some html))
          (get_hash H (extract_training_section (parse html)))) =
      [get_hash H (some html), get_hash H (extract_training_section (parse html))] ∧
    load_hashes (cycle H parse (.page html none) (initState fs0)).1.fs =
      (some (get_hash H (some html)),
        some (get_hash H (extract_training_section (parse html)))) ∧
    ((cycle H parse (.page html none) (initState fs0)).1.lastFull,
        (cycle H parse (.page html none) (initState fs0)).1.lastSection) =
      load_hashes (cycle H parse (.page html none) (initState fs0)).1.fs := by
  have hinit : initState fs0 = ⟨none, none, fs0⟩ := by
    simp [initState, hload]
  have hsl := splitlines_saved (get_hash H (some html))
    (get_hash H (extract_training_section (parse html))) (hH _) (hH _)
  have hls := load_saved (get_hash H (some html))
    (get_hash H (extract_training_section (parse html))) (hH _) (hH _)
  rw [hinit]
  refine ⟨by simp [cycle], by simp [cycle, save_hashes], hsl, ?_, ?_⟩
  · simpa [cycle] using hls
  · simp [cycle]
    rw [show (save_hashes (get_hash H (some html))
        (get_hash H (extract_training_section (parse html)))) =
      FileState.content (savedContent (get_hash H (some html))
        (get_hash H (extract_training_section (parse html)))) from rfl] at hls
    simp [save_hashes, hls]

/-- C2 (witness): the first-run property at a constant digest function, the
trivial parser, an absent state file and page text `"x"`. -/
theorem c2_first_run_witness :
    (cycle (fun _ => "d") (fun _ => []) (.page "x" none) (initState .absent)).2.1 = [] ∧
    (cycle (fun _ => "d") (fun _ => []) (.page "x" none) (initState .absent)).1.fs =
      FileState.content
        (savedContent (get_hash (fun _ => "d") (some "x"))
          (get_hash (fun _ => "d") (extract_training_section ((fun _ => ([] : List Node)) "x")))) ∧
    splitlines
        (savedContent (get_hash (fun _ => "d") (some "x"))
          (get_hash (fun _ => "d") (extract_training_section ((fun _ => ([] : List Node)) "x")))) =
      [get_hash (fun _ => "d") (some "x"),
        get_hash (fun _ => "d") (extract_training_section ((fun _ => ([] : List Node)) "x"))] ∧
    load_hashes (cycle (fun _ => "d") (fun _ => []) (.page "x" none) (initState .absent)).1.fs =
      (some (get_hash (fun _ => "d") (some "x")),
        some (get_hash (fun _ => "d")
          (extract_training_section ((fun _ => ([] : List Node)) "x")))) ∧
    ((cycle (fun _ => "d") (fun _ => []) (.page "x" none) (initState .absent)).1.lastFull,
        (cycle (fun _ => "d") (fun _ => []) (.page "x" none) (initState .absent)).1.lastSection) =
      load_hashes (cycle (fun _ => "d") (fun _ => []) (.page "x" none) (initState .absent)).1.fs :=
  c2_first_run_baseline (fun _ => "d") (fun _ => []) .absent "x" rfl
    (fun _ => (by decide : '\n' ∉ ['d']))

/-- C4: the hasher is a pure total function on optional text, the digest of
the absent value equals the digest of the empty string, and equal inputs
give equal digests. -/
theorem c4_get_hash_total (H : String → String) :
    get_hash H none = get_hash H (some "") ∧
      ∀ a b : Option String, a = b → get_hash H a = get_hash H b :=
  ⟨rfl, fun _ _ h => h ▸ rfl⟩

/-- C4 (witness): the hasher property at the identity digest function and
the concrete input `some "abc"`. -/
theorem c4_get_hash_witness :
    get_hash (fun s => s) none = get_hash (fun s => s) (some "") ∧
      get_hash (fun s => s) (some "abc") = get_hash (fun s => s) (some "abc") :=
  ⟨(c4_get_hash_total (fun s => s)).1,
    (c4_get_hash_total (fun s => s)).2 (some "abc") (some "abc") rfl⟩

/-- C5: a cycle whose fetch fails logs the error, leaves the in-memory
hashes and the file state unchanged, sends no notification, and the loop
continues with the remaining cycles from the same state. -/
theorem c5_fetch_failure_no_update (H : String → String) (parse : String → List Node)
    (s : LoopState) (es : List Event) :
    cycle H parse .fetchFail s = (s, [], true) ∧
    runLoop H parse s (.fetchFail :: es) =
      ((runLoop H parse s es).1, ([], true) :: (runLoop H parse s es).2) := by
  exact ⟨rfl, by simp [runLoop, cycle]⟩

/-- C6: the loader returns the no-prior-state signal for an absent file, an
unreadable file, and any content without exactly two lines; and no cycle
ever moves a non-baseline in-memory state back to baseline, so the load
signal is the only way into first-run mode. -/
theorem c6_load_degrades_to_baseline :
    load_hashes .absent = (none, none) ∧
    load_hashes .unreadable = (none, none) ∧
    (∀ s : String, (splitlines s).length ≠ 2 → load_hashes (.content s) = (none, none)) ∧
    (∀ (H : String → String) (parse : String → List Node) (e : Event) (s : LoopState),
      s.lastFull ≠ none → (cycle H parse e s).1.lastFull ≠ none) := by
  refine ⟨rfl, rfl, fun s h => load_content_short s h, ?_⟩
  intro H parse e s hs
  cases e with
  | fetchFail => exact hs
  | page html sv =>
    cases sv with
    | none => simp [cycle]
    | some k => simpa [cycle] using hs

/-- C6 (witness): the load signal for a one-line file, and preservation of
non-baseline state across a failed-fetch cycle. -/
theorem c6_load_degrades_witness :
    load_hashes (.content "x") = (none, none) ∧
    (cycle (fun s => s) (fun _ => []) .fetchFail ⟨some "a", some "b", .absent⟩).1.lastFull ≠
      none :=
  ⟨c6_load_degrades_to_baseline.2.2.1 "x" (by decide),
    c6_load_degrades_to_baseline.2.2.2 (fun s => s) (fun _ => []) .fetchFail
      ⟨some "a", some "b", .absent⟩ (by simp)⟩

/-- C7: notify attempts both channels independently (each channel's result
does not depend on the other's HTTP outcome), a channel with missing or
empty required configuration reports skipped, and the only observable
consequence of zero successes is the logged warning flag. -/
theorem c7_notify_independent (cfg : Config) (tg tg' mail mail' : Except Unit Unit) :
    (notify cfg tg mail).2.1 = (notify cfg tg' mail).2.1 ∧
    (notify cfg tg mail).1 = (notify cfg tg mail').1 ∧
    ((truthy cfg.telegram_bot_token && truthy cfg.telegram_chat_id) = false →
      send_telegram cfg tg = .skipped) ∧
    ((truthy cfg.brevo_api_key && truthy cfg.from_email && truthy cfg.mail_to) = false →
      send_mail cfg mail = .skipped) ∧
    ((notify cfg tg mail).2.2 = true ↔
      channelSuccess (send_telegram cfg tg) = false ∧
        channelSuccess (send_mail cfg mail) = false) := by
  refine ⟨rfl, rfl, fun h => by simp [send_telegram, h], fun h => by simp [send_mail, h], ?_⟩
  simp [notify]

/-- C7 (witness): with no channel configured (unset token, empty chat id,
unset mail variables), both channels report skipped even for a successful
POST outcome. -/
theorem c7_notify_witness :
    send_telegram ⟨none, some "", none, some "a@b", none⟩ (.ok ()) = .skipped ∧
    send_mail ⟨none, some "", none, some "a@b", none⟩ (.ok ()) = .skipped :=
  ⟨(c7_notify_independent ⟨none, some "", none, some "a@b", none⟩ (.ok ()) (.ok ())
      (.ok ()) (.ok ())).2.2.1 (by decide),
    (c7_notify_independent ⟨none, some "", none, some "a@b", none⟩ (.ok ()) (.ok ())
      (.ok ()) (.ok ())).2.2.2.1 (by decide)⟩

/-- C9: the loop controller handles every cycle's error internally: every
run processes exactly one cycle record per event, and a run over
concatenated event lists is the run of the first part followed by the run
of the second from the reached state — no event, error or not, stops the
loop. -/
theorem c9_loop_never_terminates (H : String → String) (parse : String → List Node) :
    (∀ (s : LoopState) (es : List Event), (runLoop H parse s es).2.length = es.length) ∧
    (∀ (s : LoopState) (es1 es2 : List Event),
      runLoop H parse s (es1 ++ es2) =
        ((runLoop H parse (runLoop H parse s es1).1 es2).1,
          (runLoop H parse s es1).2 ++ (runLoop H parse (runLoop H parse s es1).1 es2).2)) := by
  constructor
  · intro s es
    induction es generalizing s with
    | nil => rfl
    | cons e es ih => simp [runLoop, ih]
  · intro s es1 es2
    induction es1 generalizing s with
    | nil => simp [runLoop]
    | cons e es1 ih => simp [runLoop, ih]

/-- C10: the loader returns both digests or neither, never exactly one; and
along every run of the loop the two in-memory variables stay in lockstep,
so a steady-state comparison never sees an absent prior section hash. -/
theorem c10_both_or_neither :
    (∀ fs : FileState, ((load_hashes fs).1 = none ↔ (load_hashes fs).2 = none)) ∧
    (∀ (H : String → String) (parse : String → List Node) (fs : FileState) (es : List Event),
      ((runLoop H parse (initState fs) es).1.lastFull = none ↔
        (runLoop H parse (initState fs) es).1.lastSection = none)) := by
  have hload : ∀ fs : FileState, ((load_hashes fs).1 = none ↔ (load_hashes fs).2 = none) := by
    intro fs
    cases fs with
    | absent => simp [load_hashes]
    | unreadable => simp [load_hashes]
    | content s =>
      cases hls : splitlines s with
      | nil => simp [load_hashes, hls]
      | cons a l =>
        cases l with
        | nil => simp [load_hashes, hls]
        | cons b l2 =>
          cases l2 with
          | nil => simp [load_hashes, hls]
          | cons c l3 => simp [load_hashes, hls]
  refine ⟨hload, ?_⟩
  intro H parse fs es
  have step_pres : ∀ (e : Event) (s : LoopState),
      (s.lastFull = none ↔ s.lastSection = none) →
      ((cycle H parse e s).1.lastFull = none ↔ (cycle H parse e s).1.lastSection = none) := by
    intro e s hs
    cases e with
    | fetchFail => exact hs
    | page html sv => cases sv <;> simp [cycle, hs]
  have run_pres : ∀ (evs : List Event) (s : LoopState),
      (s.lastFull = none ↔ s.lastSection = none) →
      ((runLoop H parse s evs).1.lastFull = none ↔
        (runLoop H parse s evs).1.lastSection = none) := by
    intro evs
    induction evs with
    | nil => intro s hs; exact hs
    | cons e evs ih => intro s hs; exact ih _ (step_pres e s hs)
  exact run_pres es (initState fs) (by simpa [initState] using hload fs)

end Listener

section Sanity
example : Listener.splitlines "a\nb\n" = ["a", "b"] := by decide
example : Listener.splitlines "a\nb" = ["a", "b"] := by decide
example : Listener.splitlines "" = [] := by decide
example : Listener.splitlines "\n" = [""] := by decide
example : Listener.splitlines "a\n\n" = ["a", ""] := by decide
example : Listener.load_hashes (.content "x\ny\n") = (some "x", some "y") := by decide
example : Listener.load_hashes (.content "x") = (none, none) := by decide

example :
    Listener.extract_training_section
      [.elem "h5" [.text Listener.TARGET], .elem "p" [.text "A"], .elem "h6" [.text "B"]]
      = some "<p>A</p>" := by
  simp [Listener.extract_training_section, Listener.findHeaderSiblings,
    Listener.collect_parts, Listener.serialize, Listener.serializeList,
    Listener.nodeString, Listener.TARGET]
  decide

example :
    Listener.extract_training_section [.elem "p" [.text "A"]] = none := by
  simp [Listener.extract_training_section, Listener.findHeaderSiblings,
    Listener.nodeString, Listener.TARGET]
end Sanity
